import Mathlib

/-!
Verification of the coffer JVM class-file library (crate `bytecode`) against its
natural-language specification.  The definitions below are shallow embeddings of
the Rust sources; each is annotated with the source location it is translated
from.  Code of the repository that is not among the provided sources (the `cp`,
`rw`, `error`, `constants` and `dynamic` modules, and the macro-derived
`ConstantPoolReadWrite` implementations) is modelled from the specification and
marked as such.
-/

/-- Modelled from the spec: the error sum of section 4.5 (`src/bytecode/src/error.rs`
is not among the sources).  It carries `UnexpectedEnd`, `BadMagic(found)`,
`Invalid(context, detail)`, `PoolOverflow`, `ArithmeticOverflow`, `Utf8` and an
I/O pass-through. -/
inductive Err where
  | UnexpectedEnd
  | BadMagic (found : Nat)
  | Invalid (context : String) (detail : String)
  | PoolOverflow
  | ArithmeticOverflow
  | Utf8
  | IOErr
deriving DecidableEq, Repr

/-- Decides whether a read result is the `BadMagic` error variant. -/
def isBadMagicResult {γ : Type} : Except Err γ → Bool
  | .error (.BadMagic _) => true
  | _ => false

/-- Modelled from the spec: big-endian `u16` read of section 4.1 (`src/bytecode/src/rw.rs`
is not among the sources).  Short reads fail (`none` maps to `UnexpectedEnd` at
call sites). -/
def readU16 : List Nat → Option (Nat × List Nat)
  | b0 :: b1 :: rest => some (b0 * 256 + b1, rest)
  | _ => none

/-- Modelled from the spec: big-endian `u32` read of section 4.1 (`src/bytecode/src/rw.rs`
is not among the sources). -/
def readU32 : List Nat → Option (Nat × List Nat)
  | b0 :: b1 :: b2 :: b3 :: rest => some (((b0 * 256 + b1) * 256 + b2) * 256 + b3, rest)
  | _ => none

/-- The type-descriptor sum `Type` of `src/bytecode/src/full/mod.rs` lines 195-202
(renamed `JType`, since `Type` is a Lean keyword).  The source stores the array
dimension as `u8`; it is kept as `Nat` here, with the 255 bound enforced where
the source enforces it. -/
inductive JType where
  | Byte | Char | Double | Float | Int | Long | Boolean | Short
  | Ref (name : String)
  | ArrayRef (dim : Nat) (elem : JType)
  | Method (params : List JType) (ret : Option JType)

/-- `true` exactly on `Type::Method(..)` values (the pattern used by
`MethodHandle::check` in `src/bytecode/src/full/mod.rs`). -/
def JType.isMethodType : JType → Bool
  | .Method _ _ => true
  | _ => false

mutual
/-- `impl Display for Type`, `src/bytecode/src/full/mod.rs` lines 285-317:
emission of the descriptor grammar; an absent method return type prints `V`. -/
def JType.desc : JType → String
  | .Byte => "B"
  | .Char => "C"
  | .Double => "D"
  | .Float => "F"
  | .Int => "I"
  | .Long => "J"
  | .Boolean => "Z"
  | .Short => "S"
  | .Ref s => "L" ++ s ++ ";"
  | .ArrayRef dim t => String.mk (List.replicate dim '[') ++ JType.desc t
  | .Method params ret =>
      "(" ++ JType.descList params ++ ")" ++
        (match ret with
         | some t => JType.desc t
         | none => "V")

/-- The parameter-list emission inside the `Type::Method` arm of `Display`. -/
def JType.descList : List JType → String
  | [] => ""
  | t :: ts => JType.desc t ++ JType.descList ts
end

mutual
/-- `get_type` inside `impl FromStr for Type`, `src/bytecode/src/full/mod.rs`
lines 208-261, translated over an explicit character list.  The `fuel`
argument bounds the recursion depth; `typeFromStr` supplies enough fuel for
the whole input (lemma `getType_fuel_irrelevant`-style facts are proved where
needed), since every recursive call consumes at least one character.
The `L` arm copies the source exactly: it collects characters while the next
character is not a closing parenthesis (not a semicolon), then consumes one
character, failing with `UnexpectedEnd` when the input is exhausted.
The bracket arm counts consecutive brackets; the `u8` `checked_add` of the
source fails with `ArithmeticOverflow` as soon as the count exceeds 255. -/
def getType : Nat → List Char → Except Err (JType × List Char)
  | 0, _ => .error .UnexpectedEnd
  | _ + 1, [] => .error .UnexpectedEnd
  | fuel + 1, c :: rest =>
    match c with
    | 'B' => .ok (.Byte, rest)
    | 'C' => .ok (.Char, rest)
    | 'D' => .ok (.Double, rest)
    | 'F' => .ok (.Float, rest)
    | 'I' => .ok (.Int, rest)
    | 'J' => .ok (.Long, rest)
    | 'Z' => .ok (.Boolean, rest)
    | 'S' => .ok (.Short, rest)
    | 'L' =>
      let st := rest.takeWhile (fun ch => ch ≠ ')')
      match rest.drop st.length with
      | [] => .error .UnexpectedEnd
      | _ :: r => .ok (.Ref (String.mk st), r)
    | '[' =>
      let ws := rest.takeWhile (fun ch => ch == '[')
      let dim := 1 + ws.length
      if 255 < dim then .error .ArithmeticOverflow
      else
        match getType fuel (rest.drop ws.length) with
        | .error e => .error e
        | .ok (t, r) => .ok (.ArrayRef dim t, r)
    | '(' =>
      match parseParamList fuel rest with
      | .error e => .error e
      | .ok (types, r2) =>
        match r2 with
        | [] => .error .UnexpectedEnd
        | _ :: r3 =>
          match r3 with
          | 'V' :: _ => .ok (.Method types none, r3)
          | _ =>
            match getType fuel r3 with
            | .error e => .error e
            | .ok (t, r4) => .ok (.Method types (some t), r4)
    | other => .error (.Invalid "type character" (String.mk [other]))

/-- The `while` loop inside the `(` arm of `get_type`: push parsed types while
the next character is neither a closing parenthesis nor the end of input. -/
def parseParamList : Nat → List Char → Except Err (List JType × List Char)
  | 0, _ => .error .UnexpectedEnd
  | fuel + 1, l =>
    match l with
    | [] => .ok ([], [])
    | ')' :: _ => .ok ([], l)
    | _ =>
      match getType fuel l with
      | .error e => .error e
      | .ok (t, r) =>
        match parseParamList fuel r with
        | .error e => .error e
        | .ok (ts, r2) => .ok (t :: ts, r2)
end

/-- `impl FromStr for Type`, `src/bytecode/src/full/mod.rs` lines 204-264: parse
one type from the front of the string; remaining characters are ignored. -/
def typeFromStr (s : String) : Except Err JType :=
  match getType (2 * s.data.length + 1) s.data with
  | .error e => .error e
  | .ok (t, _) => .ok t

/-- `MethodHandleKind`, the handle-kind enumeration referenced by
`src/bytecode/src/full/mod.rs` (its declaration lives in the `constants`
module, which is not among the sources; the nine kinds are those named by the
source and by spec section 3). -/
inductive MethodHandleKind where
  | GetField | GetStatic | PutField | PutStatic
  | InvokeVirtual | InvokeStatic | InvokeSpecial | NewInvokeSpecial | InvokeInterface
deriving DecidableEq, Repr

/-- `MemberRef`, `src/bytecode/src/full/mod.rs` lines 333-339. -/
structure MemberRef where
  owner : String
  name : String
  descriptor : JType
  itfs : Bool

/-- `MethodHandle`, `src/bytecode/src/full/mod.rs` lines 45-49. -/
structure MethodHandle where
  kind : MethodHandleKind
  member : MemberRef

/-- The four kinds covered by the `should_not_be_method!` arm of
`MethodHandle::check` (`src/bytecode/src/full/mod.rs` line 89). -/
def kindIsFieldAccessor : MethodHandleKind → Bool
  | .GetField | .GetStatic | .PutField | .PutStatic => true
  | _ => false

/-- The five kinds covered by the `should_be_method!` arm of
`MethodHandle::check` (`src/bytecode/src/full/mod.rs` line 90). -/
def kindIsInvoke : MethodHandleKind → Bool
  | .InvokeVirtual | .InvokeStatic | .InvokeSpecial | .InvokeInterface | .NewInvokeSpecial => true
  | _ => false

/-- `MethodHandle::check`, `src/bytecode/src/full/mod.rs` lines 52-92: the
field-accessor kinds must not carry a method descriptor, the invoke kinds
must; nothing about member names is checked here. -/
def MethodHandle.check (m : MethodHandle) : Except Err Unit :=
  if kindIsFieldAccessor m.kind && m.member.descriptor.isMethodType then
    .error (.Invalid "MethodHandle" "kind is a field accessor but descriptor is method")
  else if kindIsInvoke m.kind && !m.member.descriptor.isMethodType then
    .error (.Invalid "MethodHandle" "kind is an invoke kind but descriptor is NOT method")
  else .ok ()

/-- `ConstantPoolReadWrite::read_from` for `MethodHandle`,
`src/bytecode/src/full/mod.rs` lines 95-103.  The kind and member have already
been decoded from the constant pool (the pool reader lives in the `cp` module,
which is not among the sources); the result is gated by `check`. -/
def methodHandleReadFrom (kind : MethodHandleKind) (member : MemberRef) :
    Except Err MethodHandle :=
  let res : MethodHandle := ⟨kind, member⟩
  match res.check with
  | .error e => .error e
  | .ok _ => .ok res

/-- `ConstantPoolReadWrite::write_to` for `MethodHandle`,
`src/bytecode/src/full/mod.rs` lines 105-135, reduced to its acceptance
behaviour (the emitted bytes go through the pool writer of the `cp` module,
which is not among the sources and cannot fail except on pool overflow):
the four field-accessor kinds are written unconditionally; the four plain
invoke kinds refuse the names `<init>` and `<clinit>` (the `not_init` helper);
`NewInvokeSpecial` requires the name `<init>`.  No descriptor check happens. -/
def methodHandleWriteTo (m : MethodHandle) : Except Err Unit :=
  match m.kind with
  | .GetField | .GetStatic | .PutField | .PutStatic => .ok ()
  | .InvokeVirtual | .InvokeStatic | .InvokeSpecial | .InvokeInterface =>
    match m.member.name with
    | "<init>" => .error (.Invalid "MethodHandle" "name must not be <init>")
    | "<clinit>" => .error (.Invalid "MethodHandle" "name must not be <clinit>")
    | _ => .ok ()
  | .NewInvokeSpecial =>
    if m.member.name ≠ "<init>" then
      .error (.Invalid "MethodHandle" "name for NewInvokeSpecial must be <init>")
    else .ok ()

/-- The descriptor half of the spec section 3 constraints: field-accessor kinds
target a non-method descriptor, invoke kinds a method descriptor.  Written
from the words of the spec, to compare against the code. -/
def descConstraintsOK (m : MethodHandle) : Bool :=
  (!kindIsFieldAccessor m.kind || !m.member.descriptor.isMethodType) &&
  (!kindIsInvoke m.kind || m.member.descriptor.isMethodType)

/-- The name half of the spec section 3 constraints: for `NewInvokeSpecial` the
member name is exactly `<init>`; for the other invoke kinds it is neither
`<init>` nor `<clinit>`.  Written from the words of the spec. -/
def nameConstraintsOK (m : MethodHandle) : Bool :=
  (!(m.kind == .NewInvokeSpecial) || m.member.name == "<init>") &&
  (!(kindIsInvoke m.kind && !(m.kind == .NewInvokeSpecial)) ||
    (!(m.member.name == "<init>") && !(m.member.name == "<clinit>")))

/-- All the spec section 3 constraints on a method handle, written from the
words of the spec (the claim side of C3). -/
def specHandleConstraints (m : MethodHandle) : Bool :=
  descConstraintsOK m && nameConstraintsOK m

/-- IEEE-754 single: the bit pattern denotes a NaN (exponent all ones, nonzero
mantissa).  Floats are embedded by their 32-bit pattern, which is what the
class-file format stores and what `f32::to_bits` returns. -/
def f32IsNaN (b : Nat) : Bool :=
  (b >>> 23) &&& 0xFF == 0xFF && b &&& 0x7FFFFF != 0

/-- IEEE-754 equality on 32-bit patterns, the semantics of the derived
`PartialEq` on the `f32` payload: NaN compares unequal to everything, positive
and negative zero compare equal, and otherwise distinct patterns denote
distinct values. -/
def f32IeeeEq (a b : Nat) : Bool :=
  !f32IsNaN a && !f32IsNaN b &&
    ((a &&& 0x7FFFFFFF == 0 && b &&& 0x7FFFFFFF == 0) || a == b)

/-- IEEE-754 double: the 64-bit pattern denotes a NaN. -/
def f64IsNaN (b : Nat) : Bool :=
  (b >>> 52) &&& 0x7FF == 0x7FF && b &&& 0xFFFFFFFFFFFFF != 0

/-- IEEE-754 equality on 64-bit patterns (derived `PartialEq` on `f64`). -/
def f64IeeeEq (a b : Nat) : Bool :=
  !f64IsNaN a && !f64IsNaN b &&
    ((a &&& 0x7FFFFFFFFFFFFFFF == 0 && b &&& 0x7FFFFFFFFFFFFFFF == 0) || a == b)

/-- `Constant`, `src/bytecode/src/full/mod.rs` lines 138-150.  The `f32`/`f64`
payloads are embedded as their bit patterns (`Nat` below 2^32 / 2^64); the
`i32`/`i64` payloads as `Int`. -/
inductive Constant where
  | I32 (i : Int)
  | F32 (bits : Nat)
  | I64 (i : Int)
  | F64 (bits : Nat)
  | String (s : String)
  | Class (s : String)
  | Field (member : MemberRef)
  | Method (itf : Bool) (member : MemberRef)
  | MethodType (t : JType)
  | MethodHandle (h : MethodHandle)

mutual
/-- Structural equality on `JType` (the derived `PartialEq` of
`src/bytecode/src/full/mod.rs` line 195; `Type` carries no floats, so the
derived equality is plain structural equality). -/
def jtBeq : JType → JType → Bool
  | .Byte, .Byte => true
  | .Char, .Char => true
  | .Double, .Double => true
  | .Float, .Float => true
  | .Int, .Int => true
  | .Long, .Long => true
  | .Boolean, .Boolean => true
  | .Short, .Short => true
  | .Ref a, .Ref b => a == b
  | .ArrayRef d1 t1, .ArrayRef d2 t2 => d1 == d2 && jtBeq t1 t2
  | .Method p1 r1, .Method p2 r2 =>
      jtListBeq p1 p2 &&
        (match r1, r2 with
         | none, none => true
         | some a, some b => jtBeq a b
         | _, _ => false)
  | _, _ => false

/-- Elementwise `jtBeq` (derived `PartialEq` on `Vec<Type>`). -/
def jtListBeq : List JType → List JType → Bool
  | [], [] => true
  | a :: as_, b :: bs => jtBeq a b && jtListBeq as_ bs
  | _, _ => false
end

/-- Derived `PartialEq` on `MemberRef` (`src/bytecode/src/full/mod.rs` line 333). -/
def memberBeq (a b : MemberRef) : Bool :=
  a.owner == b.owner && a.name == b.name && jtBeq a.descriptor b.descriptor &&
    a.itfs == b.itfs

/-- Derived `PartialEq` on `MethodHandle` (`src/bytecode/src/full/mod.rs` line 45). -/
def handleBeq (a b : MethodHandle) : Bool :=
  a.kind == b.kind && memberBeq a.member b.member

/-- The derived `PartialEq` on `Constant` (`src/bytecode/src/full/mod.rs` line
138): componentwise, which on the `F32`/`F64` payloads is IEEE float equality,
not bit-pattern equality. -/
def constantEq : Constant → Constant → Bool
  | .I32 a, .I32 b => a == b
  | .F32 a, .F32 b => f32IeeeEq a b
  | .I64 a, .I64 b => a == b
  | .F64 a, .F64 b => f64IeeeEq a b
  | .String a, .String b => a == b
  | .Class a, .Class b => a == b
  | .Field a, .Field b => memberBeq a b
  | .Method i1 a, .Method i2 b => i1 == i2 && memberBeq a b
  | .MethodType a, .MethodType b => jtBeq a b
  | .MethodHandle a, .MethodHandle b => handleBeq a b
  | _, _ => false

/-- One token fed to the hasher by `impl Hash for Constant`. -/
inductive HashToken where
  | nat (n : Nat)
  | int (i : Int)
  | str (s : String)
  | bool (b : Bool)
  | jtype (t : JType)
  | member (m : MemberRef)
  | handle (h : MethodHandle)

/-- The discriminant fed first by `impl Hash for Constant`
(`src/bytecode/src/full/mod.rs` line 173). -/
def constantDiscriminant : Constant → Nat
  | .I32 _ => 0 | .F32 _ => 1 | .I64 _ => 2 | .F64 _ => 3 | .String _ => 4
  | .Class _ => 5 | .Field _ => 6 | .Method _ _ => 7 | .MethodType _ => 8
  | .MethodHandle _ => 9

/-- `impl Hash for Constant`, `src/bytecode/src/full/mod.rs` lines 171-192, as
the exact token stream fed to the hasher: the discriminant, then the payload,
with the float payloads hashed by `to_bits` (their bit patterns).  Two
constants receive equal hashes for every hasher exactly when their streams are
equal. -/
def constantHashInput (c : Constant) : List HashToken :=
  HashToken.nat (constantDiscriminant c) ::
    match c with
    | .I32 i => [ .int i ]
    | .F32 b => [ .nat b ]
    | .I64 i => [ .int i ]
    | .F64 b => [ .nat b ]
    | .String s => [ .str s ]
    | .Class s => [ .str s ]
    | .Field m => [ .member m ]
    | .Method i m => [ .bool i, .member m ]
    | .MethodType t => [ .jtype t ]
    | .MethodHandle h => [ .handle h ]

/-- The defined bits of `ClassFlags`, `src/bytecode/src/access.rs` lines 21-45:
`ACC_PUBLIC | ACC_FINAL | ACC_SUPER | ACC_INTERFACE | ACC_ABSTRACT |
ACC_SYNTHETIC | ACC_ANNOTATION | ACC_ENUM | ACC_MODULE`. -/
def classFlagsAllBits : Nat :=
  0x0001 ||| 0x0010 ||| 0x0020 ||| 0x0200 ||| 0x0400 ||| 0x1000 ||| 0x2000 |||
    0x4000 ||| 0x8000

/-- `ClassFlags::from_bits` (generated by the `bitflags!` macro used in
`src/bytecode/src/access.rs`): `Some` exactly when no undefined bit is set. -/
def classFlagsFromBits (bits : Nat) : Option Nat :=
  if bits &&& (0xFFFF ^^^ classFlagsAllBits) = 0 then some bits else none

/-- Outcome of running a piece of Rust code that may panic. -/
inductive RustOutcome (γ : Type) where
  | panicked
  | value (v : γ)
deriving DecidableEq

/-- `ReadWrite::read_from` for `ClassFlags` as generated by `rw_impls!`
(`src/bytecode/src/access.rs` lines 175-186):
`Ok(ClassFlags::from_bits(u16::read_from(reader)?).unwrap())`.  The `unwrap`
panics when `from_bits` returns `None`, which the embedding records as
`RustOutcome.panicked`. -/
def classFlagsReadFrom (input : List Nat) : RustOutcome (Except Err (Nat × List Nat)) :=
  match readU16 input with
  | none => .value (.error .UnexpectedEnd)
  | some (w, rest) =>
    match classFlagsFromBits w with
    | none => .panicked
    | some f => .value (.ok (f, rest))

/-- The magic-number dispatch of `ReadWrite::read_from` for `Class`,
`src/bytecode/src/lib.rs` lines 116-141: read a big-endian `u32`; on
`0xCAFEBABE` continue with the version, constant pool and class wrapper
(abstracted as the `rest` continuation, since those readers are macro-derived
or live in modules not among the sources); on any other value fail with
`Invalid("class header", n.to_string())`. -/
def classReadFrom {γ : Type} (rest : List Nat → Except Err γ) (input : List Nat) :
    Except Err γ :=
  match readU32 input with
  | none => .error .UnexpectedEnd
  | some (n, r) =>
    if n = 0xCAFEBABE then rest r
    else .error (.Invalid "class header" (toString n))

mutual
/-- `BootstrapMethod`, `src/bytecode/src/full/mod.rs` lines 508-512: a method
handle plus the `Vec<OrDynamic<Constant>>` argument list. -/
inductive BootstrapMethod where
  | mk (handle : MethodHandle) (arguments : List BsmArg)

/-- Modelled from the spec: `OrDynamic<Constant>` (the `dynamic` module is not
among the sources).  An argument is either a plain loadable constant or a
`Dynamic`/`InvokeDynamic` constant, which references a bootstrap method plus a
name-and-type pair (spec sections 3 and 8, InvokeDynamic cycle scenario). -/
inductive BsmArg where
  | const (c : Constant)
  | dyn (bsm : BootstrapMethod) (name : String) (descriptor : String)
end

/-- The argument list of a bootstrap method. -/
def BootstrapMethod.args : BootstrapMethod → List BsmArg
  | .mk _ a => a

mutual
/-- Number of bootstrap-method nodes in a bootstrap method, itself included:
the termination measure for the writer drain loop. -/
def sizeBsm : BootstrapMethod → Nat
  | .mk _ args => 1 + sizeArgs args

/-- Total number of bootstrap-method nodes below an argument list. -/
def sizeArgs : List BsmArg → Nat
  | [] => 0
  | .const _ :: r => sizeArgs r
  | .dyn b _ _ :: r => sizeBsm b + sizeArgs r
end

mutual
/-- Derived `PartialEq` on `BootstrapMethod` (`src/bytecode/src/full/mod.rs`
line 508), the equality used by the pool writer for dedup. -/
def bsmBeq : BootstrapMethod → BootstrapMethod → Bool
  | .mk h1 a1, .mk h2 a2 => handleBeq h1 h2 && bsmArgsBeq a1 a2

/-- Elementwise equality on bootstrap-method argument lists. -/
def bsmArgsBeq : List BsmArg → List BsmArg → Bool
  | [], [] => true
  | a :: as_, b :: bs => bsmArgBeq a b && bsmArgsBeq as_ bs
  | _, _ => false

/-- Equality on `OrDynamic<Constant>` arguments (derived; the constant side is
the derived `Constant` equality). -/
def bsmArgBeq : BsmArg → BsmArg → Bool
  | .const c1, .const c2 => constantEq c1 c2
  | .dyn b1 n1 d1, .dyn b2 n2 d2 => bsmBeq b1 b2 && n1 == n2 && d1 == d2
  | _, _ => false
end

/-- The bootstrap-method bookkeeping of the pool writer `VecCp` used by
`Class::write_to` (`src/bytecode/src/lib.rs`): `bsm` is the pending list the
field `cp.bsm` that the drain loop in `write_to` empties; `seen` models the
dedup map of the `cp` module (not among the sources), which per spec section
4.3 returns the same index for a semantically equal entry instead of appending
again. -/
structure CpWState where
  seen : List BootstrapMethod
  bsm : List BootstrapMethod

/-- Total size of the pending bootstrap-method list: the measure that shrinks
across iterations of the drain loop in `Class::write_to`. -/
def bsmMeasure (st : CpWState) : Nat := (st.bsm.map sizeBsm).sum

/-- Modelled from the spec: `insert_bootstrap_method` of the pool writer
(module `cp`, not among the sources).  Per spec section 4.3 it dedups: an
entry equal to one already interned returns the existing index and changes
nothing; a new entry is appended to both the interned set and the pending
list `bsm`. -/
def insertBsm (b : BootstrapMethod) (st : CpWState) : Nat × CpWState :=
  match st.seen.findIdx? (fun x => bsmBeq x b) with
  | some i => (i, st)
  | none => (st.seen.length, ⟨st.seen ++ [b], st.bsm ++ [b]⟩)

/-- Modelled from the spec: the pool effect of writing a bootstrap-method
argument list (the derived `ConstantPoolReadWrite` impl for `BootstrapMethod`
is macro-generated and not among the sources).  Writing a plain constant
interns no bootstrap method; writing a `Dynamic`/`InvokeDynamic` argument
interns its bootstrap method, which may append to the pending list. -/
def writeArgsEffect : List BsmArg → CpWState → CpWState
  | [], st => st
  | .const _ :: rest, st => writeArgsEffect rest st
  | .dyn b _ _ :: rest, st => writeArgsEffect rest (insertBsm b st).2

/-- The pool effect of `bsm.write_to(&mut cp, &mut buf2)` for one bootstrap
method inside the drain loop of `Class::write_to`. -/
def writeBsmEffect (m : BootstrapMethod) (st : CpWState) : CpWState :=
  writeArgsEffect m.args st

/-- The `for bsm in v` loop body of the drain loop in `Class::write_to`
(`src/bytecode/src/lib.rs` lines 179-181): write each taken entry in order. -/
def processBsmList (v : List BootstrapMethod) (st : CpWState) : CpWState :=
  v.foldl (fun s m => writeBsmEffect m s) st

/-- The drain loop of `Class::write_to`, `src/bytecode/src/lib.rs` lines
175-182: while the pending list `cp.bsm` is nonempty, take it, reset it to
empty, and write each taken entry (which may intern further pending entries).
Returns the final pool state and all entries written, in writing order.
Termination is the heart of claim C9 and is proved at definition time: every
entry newly appended while writing the taken list `v` is a strict subterm of
an entry of `v`, so the total pending size strictly decreases. -/
def drainBsm (st : CpWState) : CpWState × List BootstrapMethod :=
  if h : st.bsm.isEmpty then (st, [])
  else
    let r := drainBsm (processBsmList st.bsm { st with bsm := [] })
    (r.1, st.bsm ++ r.2)
termination_by bsmMeasure st
decreasing_by
  have hsize : ∀ m : BootstrapMethod, sizeBsm m = 1 + sizeArgs m.args := by
    intro m
    cases m with
    | mk hd args => simp [sizeBsm, BootstrapMethod.args]
  have hins : ∀ (b : BootstrapMethod) (s : CpWState),
      bsmMeasure (insertBsm b s).2 ≤ bsmMeasure s + sizeBsm b := by
    intro b s
    unfold insertBsm
    cases hf : s.seen.findIdx? (fun x => bsmBeq x b) with
    | some i => simp
    | none => simp [bsmMeasure]
  have hargs : ∀ (args : List BsmArg) (s : CpWState),
      bsmMeasure (writeArgsEffect args s) ≤ bsmMeasure s + sizeArgs args := by
    intro args
    induction args with
    | nil => intro s; simp [writeArgsEffect, sizeArgs]
    | cons a rest ih =>
      intro s
      cases a with
      | const c => simpa [writeArgsEffect, sizeArgs] using ih s
      | dyn b nm dsc =>
        have ha1 := ih (insertBsm b s).2
        have ha2 := hins b s
        simp only [writeArgsEffect, sizeArgs]
        omega
  have hproc : ∀ (v : List BootstrapMethod) (s : CpWState),
      bsmMeasure (processBsmList v s) + v.length ≤
        bsmMeasure s + (v.map sizeBsm).sum := by
    intro v
    induction v with
    | nil => intro s; simp [processBsmList]
    | cons m rest ih =>
      intro s
      have hp1 := ih (writeBsmEffect m s)
      have hp2 : bsmMeasure (writeBsmEffect m s) ≤ bsmMeasure s + sizeArgs m.args := by
        simpa [writeBsmEffect] using hargs m.args s
      have hp3 := hsize m
      simp only [processBsmList, List.foldl_cons, List.map_cons, List.sum_cons,
        List.length_cons] at hp1 ⊢
      omega
  have h1 := hproc st.bsm { st with bsm := [] }
  have h2 : bsmMeasure { st with bsm := ([] : List BootstrapMethod) } = 0 := by
    simp [bsmMeasure]
  have h3 : 1 ≤ st.bsm.length := by
    cases hb : st.bsm with
    | nil => rw [hb] at h; simp at h
    | cons x xs => simp
  have h4 : bsmMeasure st = (st.bsm.map sizeBsm).sum := rfl
  omega

/-- `ClassAttribute` (`src/bytecode/src/full/mod.rs` lines 496-506) as seen by
`Class::write_to`: the `BootstrapMethods` variant is the only one the writer
treats specially, so the twelve remaining variants (whose payload types live
in modules not among the sources) are collapsed into `other` over an abstract
payload type. -/
inductive ClassAttributeM (α : Type) where
  | bootstrapMethods (methods : List BootstrapMethod)
  | other (payload : α)

/-- One attribute record as it lands in the output buffer `buf` of
`Class::write_to`: either the serialized form of an ordinary attribute, or the
final `BootstrapMethods` record listing the entries written by the drain
loop. -/
inductive AttrRecordM (β : Type) where
  | other (payload : β)
  | bootstrapRecord (entries : List BootstrapMethod)

/-- The `for a in &self.attributes` loop of `Class::write_to`
(`src/bytecode/src/lib.rs` lines 164-171): `BootstrapMethods` attributes are
collected into the local `bsm` vector and write nothing; every other
attribute is serialized through the caller-supplied writer `attrWrite`
(modelled from the spec, since the derived per-attribute writers are not
among the sources; it may intern pending bootstrap methods into the pool
state, and yields `none` when the attribute writes no record, as spec section
9 prescribes for `Raw` attributes with `keep = false`). -/
def writeAttrsLoop {α β : Type} (attrWrite : α → CpWState → CpWState × Option β) :
    List (ClassAttributeM α) → CpWState → List (AttrRecordM β) →
      List BootstrapMethod → CpWState × List (AttrRecordM β) × List BootstrapMethod
  | [], st, recs, bsmLocal => (st, recs, bsmLocal)
  | .bootstrapMethods b :: rest, st, recs, bsmLocal =>
      writeAttrsLoop attrWrite rest st recs (bsmLocal ++ b)
  | .other a :: rest, st, recs, bsmLocal =>
      match attrWrite a st with
      | (st2, some bytes) =>
          writeAttrsLoop attrWrite rest st2 (recs ++ [ .other bytes ]) bsmLocal
      | (st2, none) => writeAttrsLoop attrWrite rest st2 recs bsmLocal

/-- The concatenation of the declared `BootstrapMethods` attribute contents:
the value of the local `bsm` vector after the attribute loop of
`Class::write_to`. -/
def declaredBsmOf {α : Type} : List (ClassAttributeM α) → List BootstrapMethod
  | [] => []
  | .bootstrapMethods b :: rest => b ++ declaredBsmOf rest
  | .other _ :: rest => declaredBsmOf rest

/-- The records produced by the attribute loop alone, that is, by all the
non-`BootstrapMethods` attributes in order. -/
def nonBsmRecords {α β : Type} (attrWrite : α → CpWState → CpWState × Option β)
    (attrs : List (ClassAttributeM α)) (st : CpWState) : List (AttrRecordM β) :=
  (writeAttrsLoop attrWrite attrs st [] []).2.1

/-- The attribute section of `Class::write_to`, `src/bytecode/src/lib.rs` lines
163-187: write `attributes.len() as u16` as the declared count, run the
attribute loop, and afterwards, only if the collected local `bsm` vector is
nonempty, run the drain loop on the pool pending list and append a single
`BootstrapMethods` record holding the entries the drain wrote.  Returns the
declared count, the final pool state, and the record list in buffer order.
(The interning of the literal name `"BootstrapMethods"` and the `u16` `i`
counter of the source only affect byte contents, not record order or pool
pending state, and are not modelled.) -/
def classWriteAttrs {α β : Type} (attrWrite : α → CpWState → CpWState × Option β)
    (attrs : List (ClassAttributeM α)) (st : CpWState) :
    Nat × CpWState × List (AttrRecordM β) :=
  let declared := attrs.length % 65536
  match writeAttrsLoop attrWrite attrs st [] [] with
  | (st1, recs, bsmLocal) =>
    if bsmLocal.isEmpty then (declared, st1, recs)
    else
      let dr := drainBsm st1
      (declared, dr.1, recs ++ [ .bootstrapRecord dr.2 ])

/-- `true` exactly on the `BootstrapMethods` variant of a class attribute. -/
def isBsmAttr {α : Type} : ClassAttributeM α → Bool
  | .bootstrapMethods _ => true
  | .other _ => false

/-- A concrete invoke-static method handle used by the closed witnesses. -/
def witHandle : MethodHandle :=
  ⟨.InvokeStatic, ⟨"Owner", "bsm", .Method [] none, false⟩⟩

/-- A concrete bootstrap method with no arguments, used by the witnesses. -/
def witInner : BootstrapMethod := .mk witHandle []

/-- A concrete bootstrap method whose argument is itself an `InvokeDynamic`
constant referencing `witInner`: the cyclic scenario of spec section 8. -/
def witOuter : BootstrapMethod := .mk witHandle [ .dyn witInner "call" "()V" ]

/-- A concrete attribute writer that touches no pool state and emits one
record per attribute, used by the witnesses. -/
def witWrite : Unit → CpWState → CpWState × Option Nat := fun _ s => (s, some 0)

/-- Interning one bootstrap method grows the pending measure by at most the
size of that method. -/
theorem bsmMeasure_insertBsm (b : BootstrapMethod) (st : CpWState) :
    bsmMeasure (insertBsm b st).2 ≤ bsmMeasure st + sizeBsm b := by
  unfold insertBsm
  cases h : st.seen.findIdx? (fun x => bsmBeq x b) with
  | some i => simp
  | none => simp [bsmMeasure]

/-- Writing an argument list grows the pending measure by at most the total
size of the bootstrap methods below it. -/
theorem bsmMeasure_writeArgs (args : List BsmArg) :
    ∀ st, bsmMeasure (writeArgsEffect args st) ≤ bsmMeasure st + sizeArgs args := by
  induction args with
  | nil => intro st; simp [writeArgsEffect, sizeArgs]
  | cons a rest ih =>
    intro st
    cases a with
    | const c =>
      simpa [writeArgsEffect, sizeArgs] using ih st
    | dyn b n d =>
      have h1 := ih (insertBsm b st).2
      have h2 := bsmMeasure_insertBsm b st
      simp only [writeArgsEffect, sizeArgs]
      omega

/-- Writing every entry of a taken pending list `v` leaves a pending measure
bounded by the strict subterms of `v` (each entry contributes its subterms
only, and each entry itself counts 1); stated additively to stay in `Nat`. -/
theorem bsmMeasure_processBsmList (v : List BootstrapMethod) :
    ∀ st, bsmMeasure (processBsmList v st) + v.length ≤
      bsmMeasure st + (v.map sizeBsm).sum := by
  induction v with
  | nil => intro st; simp [processBsmList]
  | cons m rest ih =>
    intro st
    have h1 := ih (writeBsmEffect m st)
    have h2 : bsmMeasure (writeBsmEffect m st) ≤ bsmMeasure st + sizeArgs m.args := by
      simpa [writeBsmEffect] using bsmMeasure_writeArgs m.args st
    have h3 : sizeBsm m = 1 + sizeArgs m.args := by
      cases m with
      | mk h args => simp [sizeBsm, BootstrapMethod.args]
    simp only [processBsmList, List.foldl_cons, List.map_cons, List.sum_cons,
      List.length_cons] at h1 ⊢
    omega

/-- After the drain loop finishes, the pending list is empty: the fixed point
required by claim C9. -/
theorem drainBsm_pending_empty (st : CpWState) : ((drainBsm st).1).bsm = [] := by
  generalize hn : bsmMeasure st = n
  induction n using Nat.strong_induction_on generalizing st with
  | _ n ih =>
    rw [drainBsm]
    by_cases h : st.bsm.isEmpty
    · simp only [h, dite_true]
      exact List.isEmpty_iff.mp h
    · simp only [h, dite_false]
      have h1 := bsmMeasure_processBsmList st.bsm { st with bsm := [] }
      have h2 : bsmMeasure { st with bsm := ([] : List BootstrapMethod) } = 0 := by
        simp [bsmMeasure]
      have h3 : 1 ≤ st.bsm.length := by
        cases hb : st.bsm with
        | nil => rw [hb] at h; simp at h
        | cons x xs => simp
      have h4 : bsmMeasure st = (st.bsm.map sizeBsm).sum := rfl
      exact ih (bsmMeasure (processBsmList st.bsm { st with bsm := [] }))
        (by omega) _ rfl

/-- The attribute loop accumulates exactly the declared bootstrap methods into
the local `bsm` vector, whatever the initial accumulators. -/
theorem writeAttrsLoop_bsmLocal {α β : Type}
    (attrWrite : α → CpWState → CpWState × Option β) :
    ∀ (attrs : List (ClassAttributeM α)) (st : CpWState)
      (recs : List (AttrRecordM β)) (bl : List BootstrapMethod),
      (writeAttrsLoop attrWrite attrs st recs bl).2.2 = bl ++ declaredBsmOf attrs := by
  intro attrs
  induction attrs with
  | nil => intro st recs bl; simp [writeAttrsLoop, declaredBsmOf]
  | cons a rest ih =>
    intro st recs bl
    cases a with
    | bootstrapMethods b =>
      simp [writeAttrsLoop, declaredBsmOf, ih]
    | other p =>
      simp only [writeAttrsLoop, declaredBsmOf]
      cases h : attrWrite p st with
      | mk st2 ob =>
        cases ob with
        | some bytes => simp [ih]
        | none => simp [ih]

/-- Taking characters while seeing an opening bracket passes through a
replicated bracket prefix. -/
theorem takeWhile_bracket_replicate_append (m : Nat) (r : List Char) :
    (List.replicate m '[' ++ r).takeWhile (fun ch => ch == '[') =
      List.replicate m '[' ++ r.takeWhile (fun ch => ch == '[') := by
  induction m with
  | zero => simp
  | succ k ih => simp [List.replicate_succ, List.takeWhile_cons, ih]

/-- A list not starting with an opening bracket yields nothing under
`takeWhile` on brackets. -/
theorem takeWhile_bracket_none (r : List Char) (h : r.head? ≠ some '[') :
    r.takeWhile (fun ch => ch == '[') = [] := by
  cases r with
  | nil => rfl
  | cons c cs =>
    have hne : c ≠ '[' := by
      intro hcc
      exact h (by simp [hcc])
    have hc : (c == '[') = false := by
      simpa using hne
    simp [List.takeWhile_cons, hc]

/-- Dropping the length of a replicated prefix recovers the suffix. -/
theorem drop_bracket_replicate_append (m : Nat) (r : List Char) :
    (List.replicate m '[' ++ r).drop m = r := by
  induction m with
  | zero => simp
  | succ k ih => simpa [List.replicate_succ] using ih

/-- Declared bootstrap methods distribute over attribute-list append. -/
theorem declaredBsmOf_append {α : Type} (l1 l2 : List (ClassAttributeM α)) :
    declaredBsmOf (l1 ++ l2) = declaredBsmOf l1 ++ declaredBsmOf l2 := by
  induction l1 with
  | nil => simp [declaredBsmOf]
  | cons a rest ih =>
    cases a with
    | bootstrapMethods b => simp [declaredBsmOf, ih]
    | other p => simp [declaredBsmOf, ih]

/-- An attribute list without a `BootstrapMethods` variant declares no
bootstrap methods. -/
theorem declaredBsmOf_no_bsm {α : Type} (l : List (ClassAttributeM α))
    (h : ∀ a ∈ l, isBsmAttr a = false) : declaredBsmOf l = [] := by
  induction l with
  | nil => rfl
  | cons a rest ih =>
    cases a with
    | bootstrapMethods b =>
      have := h (.bootstrapMethods b) (by simp)
      simp [isBsmAttr] at this
    | other p =>
      exact ih (fun a ha => h a (by simp [ha]))

/-- Over a bootstrap-free attribute list whose writer always emits a record,
the attribute loop appends exactly one record per attribute. -/
theorem writeAttrsLoop_length_no_bsm {α β : Type}
    (attrWrite : α → CpWState → CpWState × Option β)
    (hw : ∀ (a : α) (s : CpWState), ((attrWrite a s).2).isSome = true) :
    ∀ (attrs : List (ClassAttributeM α)), (∀ a ∈ attrs, isBsmAttr a = false) →
      ∀ (st : CpWState) (recs : List (AttrRecordM β)) (bl : List BootstrapMethod),
        (writeAttrsLoop attrWrite attrs st recs bl).2.1.length =
          recs.length + attrs.length := by
  intro attrs
  induction attrs with
  | nil => intro _ st recs bl; simp [writeAttrsLoop]
  | cons a rest ih =>
    intro hnb st recs bl
    cases a with
    | bootstrapMethods b =>
      have := hnb (.bootstrapMethods b) (by simp)
      simp [isBsmAttr] at this
    | other p =>
      cases hap : attrWrite p st with
      | mk st2 ob =>
        cases ob with
        | none =>
          have := hw p st
          rw [hap] at this
          simp at this
        | some bytes =>
          simp only [writeAttrsLoop, hap]
          rw [ih (fun a ha => hnb a (by simp [ha])) st2
            (recs ++ [AttrRecordM.other bytes]) bl]
          simp only [List.length_append, List.length_cons, List.length_nil]
          omega

/-- The attribute loop over an appended list runs the two halves in sequence,
threading state and accumulators. -/
theorem writeAttrsLoop_append_split {α β : Type}
    (attrWrite : α → CpWState → CpWState × Option β) :
    ∀ (l1 l2 : List (ClassAttributeM α)) (st : CpWState)
      (recs : List (AttrRecordM β)) (bl : List BootstrapMethod),
      writeAttrsLoop attrWrite (l1 ++ l2) st recs bl =
        writeAttrsLoop attrWrite l2 (writeAttrsLoop attrWrite l1 st recs bl).1
          (writeAttrsLoop attrWrite l1 st recs bl).2.1
          (writeAttrsLoop attrWrite l1 st recs bl).2.2 := by
  intro l1
  induction l1 with
  | nil => intro l2 st recs bl; simp [writeAttrsLoop]
  | cons a rest ih =>
    intro l2 st recs bl
    cases a with
    | bootstrapMethods b =>
      simp only [List.cons_append, writeAttrsLoop]
      exact ih l2 st recs (bl ++ b)
    | other p =>
      cases hap : attrWrite p st with
      | mk st2 ob =>
        cases ob with
        | some bytes =>
          simp only [List.cons_append, writeAttrsLoop, hap]
          exact ih l2 st2 (recs ++ [AttrRecordM.other bytes]) bl
        | none =>
          simp only [List.cons_append, writeAttrsLoop, hap]
          exact ih l2 st2 recs bl

/-- Claim C1 (code bug): the claimed round trip `read(write(C)) == C` cannot
hold, because the write path and the read path of the descriptor codec
disagree on reference types.  `Display` emits a `Ref` descriptor terminated by
a semicolon, but `Type::from_str` scans the class name up to a closing
parenthesis instead of the semicolon, so the very string the writer emits for
any class containing a `Ref`-typed field or method is rejected by the reader
with `UnexpectedEnd`.  This theorem evaluates both codec directions at the
failing descriptor. -/
theorem c1_descriptor_write_read_mismatch :
    JType.desc (.Ref "java/lang/String") = "Ljava/lang/String;" ∧
    typeFromStr "Ljava/lang/String;" = .error .UnexpectedEnd :=
  ⟨rfl, rfl⟩

/-- Claim C2 (code bug): parsing `"(IJLjava/lang/String;)[D"` does not yield
the claimed `Method` type; it fails with `UnexpectedEnd`, because the `L` arm
of `get_type` consumes up to the closing parenthesis (swallowing the
semicolon and the parenthesis), after which the method arm parses `[D` as a
fourth parameter and runs off the end of the input. -/
theorem c2_descriptor_scenario_fails :
    typeFromStr "(IJLjava/lang/String;)[D" = .error .UnexpectedEnd :=
  rfl

/-- Claim C3, counterexample: a `GetField` handle whose member descriptor is a
method type is accepted without error by `MethodHandle::write_to` (which
checks names only, never descriptors), yet violates the spec section 3
constraint that field-accessor kinds target a non-method descriptor.  So not
every handle accepted by the writer satisfies all the section 3 constraints. -/
theorem c3_claim_counterexample :
    methodHandleWriteTo ⟨.GetField, ⟨"A", "x", .Method [] none, false⟩⟩ = .ok () ∧
    specHandleConstraints ⟨.GetField, ⟨"A", "x", .Method [] none, false⟩⟩ = false :=
  ⟨rfl, rfl⟩

/-- Claim C3, amended: the checks are split between the two directions.  Every
`MethodHandle` returned by `read_from` satisfies the descriptor constraints
(field-accessor kinds carry a non-method descriptor, invoke kinds a method
descriptor), and every handle accepted by `write_to` satisfies the name
constraints (`NewInvokeSpecial` requires `<init>`, the other invoke kinds
refuse `<init>` and `<clinit>`).  Neither direction checks the other half. -/
theorem c3_amended_handle_checks (kind : MethodHandleKind) (member : MemberRef) :
    (∀ res, methodHandleReadFrom kind member = .ok res → descConstraintsOK res = true) ∧
    (methodHandleWriteTo ⟨kind, member⟩ = .ok () →
      nameConstraintsOK ⟨kind, member⟩ = true) := by
  constructor
  · intro res h
    simp only [methodHandleReadFrom] at h
    cases hc : MethodHandle.check ⟨kind, member⟩ with
    | error e => rw [hc] at h; exact absurd h (by simp)
    | ok u =>
      rw [hc] at h
      have hres : res = ⟨kind, member⟩ := by
        cases h; rfl
      subst hres
      cases hd : member.descriptor.isMethodType <;>
        cases kind <;>
        simp_all [MethodHandle.check, descConstraintsOK, kindIsFieldAccessor,
          kindIsInvoke]
  · intro h
    cases kind <;>
      simp_all [methodHandleWriteTo, nameConstraintsOK, kindIsInvoke] <;>
      split at h <;>
      simp_all

/-- Claim C3, witness: the amended theorem applied to a concrete
`InvokeVirtual` handle with a method descriptor and an ordinary name. -/
theorem c3_amended_handle_checks_witness :
    descConstraintsOK ⟨.InvokeVirtual, ⟨"A", "m", .Method [] none, false⟩⟩ = true ∧
    nameConstraintsOK ⟨.InvokeVirtual, ⟨"A", "m", .Method [] none, false⟩⟩ = true :=
  ⟨(c3_amended_handle_checks .InvokeVirtual ⟨"A", "m", .Method [] none, false⟩).1
      ⟨.InvokeVirtual, ⟨"A", "m", .Method [] none, false⟩⟩ rfl,
    (c3_amended_handle_checks .InvokeVirtual ⟨"A", "m", .Method [] none, false⟩).2 rfl⟩

/-- Claim C4 (code bug): equality on `Constant` is the derived `PartialEq`,
which compares `F32`/`F64` payloads with IEEE float equality, not by bit
pattern: `F32(+0.0)` equals `F32(-0.0)` (the claim says they differ), a NaN
payload differs from itself even at an identical bit pattern (the claim says
they are equal), and since `Hash` feeds `to_bits` to the hasher, two equal
constants hash differently, violating the claimed equality/hash agreement. -/
theorem c4_float_equality_bug :
    constantEq (.F32 0) (.F32 0x80000000) = true ∧
    constantEq (.F32 0x7FC00000) (.F32 0x7FC00000) = false ∧
    constantHashInput (.F32 0) ≠ constantHashInput (.F32 0x80000000) := by
  refine ⟨by decide, by decide, ?_⟩
  intro hcon
  simp [constantHashInput, constantDiscriminant] at hcon

/-- Claim C5, counterexample: on input bytes whose first word is zero, the
reader fails with `Invalid("class header", "0")`, not with the `BadMagic`
variant the claim names. -/
theorem c5_claim_counterexample :
    classReadFrom (γ := Unit) (fun _ => .error .UnexpectedEnd) [ 0, 0, 0, 0 ] =
      .error (.Invalid "class header" "0") ∧
    isBadMagicResult (classReadFrom (γ := Unit) (fun _ => .error .UnexpectedEnd)
      [ 0, 0, 0, 0 ]) = false :=
  ⟨rfl, rfl⟩

/-- Claim C5, amended: for every input whose leading big-endian `u32` is not
`0xCAFEBABE`, `Class::read_from` fails with
`Invalid("class header", found.to_string())` carrying the decimal rendering of
the value found; the `BadMagic` variant of the error sum is not the one
used. -/
theorem c5_amended_bad_magic_invalid {γ : Type} (rest : List Nat → Except Err γ)
    (input : List Nat) (n : Nat) (r : List Nat)
    (h : readU32 input = some (n, r)) (hn : n ≠ 0xCAFEBABE) :
    classReadFrom rest input = .error (.Invalid "class header" (toString n)) := by
  unfold classReadFrom
  rw [h]
  simp [hn]

/-- Claim C5, witness: the amended theorem applied to the concrete input bytes
1, 2, 3, 4, whose leading word is 16909060. -/
theorem c5_amended_bad_magic_invalid_witness :
    classReadFrom (γ := Unit) (fun _ => .error .UnexpectedEnd) [ 1, 2, 3, 4 ] =
      .error (.Invalid "class header" (toString 16909060)) :=
  c5_amended_bad_magic_invalid _ _ 16909060 [] rfl (by decide)

/-- Claim C6 (code bug): the access-flags readers generated by `rw_impls!` call
`from_bits(..).unwrap()`, so a flags word with an undefined bit does not
produce an error result: it panics.  Bit `0x0002` is undefined for
`ClassFlags`, `from_bits` returns `None` on it, and reading the two bytes
`00 02` as class flags panics instead of returning `Err`. -/
theorem c6_flags_unwrap_panics :
    classFlagsFromBits 0x0002 = none ∧
    classFlagsReadFrom [ 0x00, 0x02 ] = .panicked :=
  ⟨by decide, rfl⟩

/-- Claim C7 (confirmed): a descriptor beginning with at least 256 consecutive
opening brackets is rejected with `ArithmeticOverflow` (the `u8` dimension
counter overflows), and for 1 to 255 consecutive brackets followed by a field
type that parses, the result is `ArrayRef` with dimension exactly the bracket
count.  The parse hypothesis is stated for every sufficient fuel value, fuel
being an artifact of the embedding only. -/
theorem c7_array_dimension_bounds (n : Nat) (rest : List Char) :
    (256 ≤ n →
      typeFromStr ⟨List.replicate n '[' ++ rest⟩ = .error .ArithmeticOverflow) ∧
    (∀ t rest2, 1 ≤ n → n ≤ 255 → rest.head? ≠ some '[' →
      JType.isMethodType t = false →
      (∀ fuel, 2 * rest.length < fuel → getType fuel rest = .ok (t, rest2)) →
      typeFromStr ⟨List.replicate n '[' ++ rest⟩ = .ok (.ArrayRef n t)) := by
  constructor
  · intro h256
    obtain ⟨m, rfl⟩ : ∃ m, n = m + 1 := ⟨n - 1, by omega⟩
    have hdata : List.replicate (m + 1) '[' ++ rest =
        '[' :: (List.replicate m '[' ++ rest) := by
      simp [List.replicate_succ]
    simp only [typeFromStr, hdata]
    simp only [getType, takeWhile_bracket_replicate_append]
    rw [if_pos (show 255 < 1 +
        (List.replicate m '[' ++ List.takeWhile (fun ch => ch == '[') rest).length by
      simp only [List.length_append, List.length_replicate]
      omega)]
  · intro t rest2 h1 h255 hhead hmeth hfuel
    obtain ⟨m, rfl⟩ : ∃ m, n = m + 1 := ⟨n - 1, by omega⟩
    have hdata : List.replicate (m + 1) '[' ++ rest =
        '[' :: (List.replicate m '[' ++ rest) := by
      simp [List.replicate_succ]
    simp only [typeFromStr, hdata]
    simp only [getType, takeWhile_bracket_replicate_append,
      takeWhile_bracket_none rest hhead, List.append_nil]
    rw [if_neg (show ¬ 255 < 1 + (List.replicate m '[').length by
      rw [List.length_replicate]
      omega)]
    rw [List.length_replicate, drop_bracket_replicate_append]
    rw [hfuel (2 * (( '[' :: (List.replicate m '[' ++ rest)).length)) (by
      simp only [List.length_cons, List.length_append, List.length_replicate]
      omega)]
    have hcm : 1 + m = m + 1 := Nat.add_comm 1 m
    rw [hcm]

/-- Claim C7, witness: 256 brackets overflow; two brackets before `D` parse as
a two-dimensional double array. -/
theorem c7_array_dimension_bounds_witness :
    typeFromStr ⟨List.replicate 256 '[' ++ []⟩ = .error .ArithmeticOverflow ∧
    typeFromStr ⟨List.replicate 2 '[' ++ [ 'D' ]⟩ = .ok (.ArrayRef 2 .Double) := by
  constructor
  · exact (c7_array_dimension_bounds 256 []).1 (by omega)
  · refine (c7_array_dimension_bounds 2 [ 'D' ]).2 .Double [] (by omega) (by omega)
      (by decide) rfl ?_
    intro fuel hf
    obtain ⟨f, rfl⟩ : ∃ f, fuel = f + 1 := ⟨fuel - 1, by omega⟩
    rfl

/-- Claim C8 (code bug): `Type::from_str` does produce an `ArrayRef` whose
element is itself a `Method` type, contradicting the invariant stated both by
the claim and by the doc comment on `Type::Method` in the source: the bracket
arm recurses into `get_type` without rejecting a method element, so the
descriptor `"[(I)V"` parses successfully to an array of a method type. -/
theorem c8_array_of_method_parsed :
    typeFromStr "[(I)V" = .ok (.ArrayRef 1 (.Method [ .Int ] none)) ∧
    (JType.Method [ .Int ] none).isMethodType = true :=
  ⟨rfl, rfl⟩

/-- Claim C9 (confirmed, pool writer modelled from the spec): whenever a class
declares a nonempty `BootstrapMethods` attribute, `Class::write_to` emits the
`BootstrapMethods` record strictly after all records of the other attributes,
and the drain loop reaches its fixed point: the final pool state has an empty
pending bootstrap-method list, even when bootstrap-method arguments are
themselves `InvokeDynamic`/`Dynamic` constants referencing further bootstrap
methods. -/
theorem c9_bootstrap_methods_last_and_quiesce {α β : Type}
    (attrWrite : α → CpWState → CpWState × Option β)
    (attrs : List (ClassAttributeM α)) (st : CpWState)
    (h : declaredBsmOf attrs ≠ []) :
    (∃ written, (classWriteAttrs attrWrite attrs st).2.2 =
        nonBsmRecords attrWrite attrs st ++ [ .bootstrapRecord written ]) ∧
    ((classWriteAttrs attrWrite attrs st).2.1).bsm = [] := by
  unfold classWriteAttrs
  cases hw : writeAttrsLoop attrWrite attrs st [] [] with
  | mk st1 rp =>
    cases rp with
    | mk recs bsmLocal =>
      have hbl : bsmLocal = declaredBsmOf attrs := by
        have hh := writeAttrsLoop_bsmLocal attrWrite attrs st [] []
        rw [hw] at hh
        simpa using hh
      have hbe : bsmLocal.isEmpty = false := by
        rw [hbl]
        cases hd : declaredBsmOf attrs with
        | nil => exact absurd hd h
        | cons x xs => rfl
      simp only [hbe, Bool.false_eq_true, if_false]
      constructor
      · refine ⟨(drainBsm st1).2, ?_⟩
        unfold nonBsmRecords
        rw [hw]
      · exact drainBsm_pending_empty st1

/-- Claim C9, witness: one ordinary attribute plus a declared bootstrap method
whose argument is an `InvokeDynamic` constant referencing a second bootstrap
method; the pool already holds the outer entry as pending, and the writer
still quiesces with the bootstrap record emitted last. -/
theorem c9_bootstrap_methods_last_and_quiesce_witness :
    (∃ written,
      (classWriteAttrs witWrite
          [ ClassAttributeM.other (), ClassAttributeM.bootstrapMethods [ witOuter ] ]
          ⟨[ witOuter ], [ witOuter ]⟩).2.2 =
        nonBsmRecords witWrite
          [ ClassAttributeM.other (), ClassAttributeM.bootstrapMethods [ witOuter ] ]
          ⟨[ witOuter ], [ witOuter ]⟩ ++ [ .bootstrapRecord written ]) ∧
    ((classWriteAttrs witWrite
        [ ClassAttributeM.other (), ClassAttributeM.bootstrapMethods [ witOuter ] ]
        ⟨[ witOuter ], [ witOuter ]⟩).2.1).bsm = [] :=
  c9_bootstrap_methods_last_and_quiesce witWrite _ _ (by simp [declaredBsmOf])

/-- Claim C10 (confirmed): when the attribute list contains one
`BootstrapMethods` entry whose method list is empty, the other attributes are
bootstrap-free and each writes exactly one record, and no pending bootstrap
entries are produced while writing them, `Class::write_to` still writes
`attributes.len()` as the declared `u16` count but emits no `BootstrapMethods`
record, so the declared count exceeds the number of records written by one. -/
theorem c10_attribute_count_mismatch {α β : Type}
    (attrWrite : α → CpWState → CpWState × Option β)
    (pre post : List (ClassAttributeM α)) (st : CpWState)
    (hnb : ∀ a ∈ pre ++ post, isBsmAttr a = false)
    (hw : ∀ (a : α) (s : CpWState), ((attrWrite a s).2).isSome = true)
    (hp : ∀ (a : α) (s : CpWState), ((attrWrite a s).1).bsm = s.bsm)
    (hlen : pre.length + post.length + 1 < 65536) :
    (classWriteAttrs attrWrite (pre ++ [ .bootstrapMethods [] ] ++ post) st).1 =
      ((classWriteAttrs attrWrite (pre ++ [ .bootstrapMethods [] ] ++ post) st).2.2).length
        + 1 := by
  have hnbp : ∀ a ∈ pre, isBsmAttr a = false := fun a ha => hnb a (by simp [ha])
  have hnbq : ∀ a ∈ post, isBsmAttr a = false := fun a ha => hnb a (by simp [ha])
  have hdb : declaredBsmOf
      (pre ++ [ ClassAttributeM.bootstrapMethods ([] : List BootstrapMethod) ] ++ post) = [] := by
    rw [declaredBsmOf_append, declaredBsmOf_append]
    rw [declaredBsmOf_no_bsm pre hnbp, declaredBsmOf_no_bsm post hnbq]
    simp [declaredBsmOf]
  have hbl := writeAttrsLoop_bsmLocal attrWrite
    (pre ++ [ ClassAttributeM.bootstrapMethods [] ] ++ post) st [] []
  unfold classWriteAttrs
  cases hw2 : writeAttrsLoop attrWrite
      (pre ++ [ ClassAttributeM.bootstrapMethods [] ] ++ post) st [] [] with
  | mk st1 rp =>
    cases rp with
    | mk recs bsmLocal =>
      have hbe : bsmLocal = [] := by
        rw [hw2] at hbl
        simp only [hdb, List.nil_append] at hbl
        exact hbl
      subst hbe
      simp only [List.isEmpty_nil, if_true]
      have hbm : writeAttrsLoop attrWrite
          [ ClassAttributeM.bootstrapMethods ([] : List BootstrapMethod) ]
          (writeAttrsLoop attrWrite pre st [] []).1
          (writeAttrsLoop attrWrite pre st [] []).2.1
          (writeAttrsLoop attrWrite pre st [] []).2.2 =
          writeAttrsLoop attrWrite pre st [] [] := by
        simp [writeAttrsLoop]
      have hs2 := writeAttrsLoop_append_split attrWrite pre
        [ ClassAttributeM.bootstrapMethods [] ] st [] []
      have hP : writeAttrsLoop attrWrite
          (pre ++ [ ClassAttributeM.bootstrapMethods [] ]) st [] [] =
          writeAttrsLoop attrWrite pre st [] [] := by
        rw [hs2, hbm]
      have hs := writeAttrsLoop_append_split attrWrite
        (pre ++ [ ClassAttributeM.bootstrapMethods [] ]) post st [] []
      rw [hP] at hs
      rw [hs] at hw2
      have hlenpost := writeAttrsLoop_length_no_bsm attrWrite hw post hnbq
        (writeAttrsLoop attrWrite pre st [] []).1
        (writeAttrsLoop attrWrite pre st [] []).2.1
        (writeAttrsLoop attrWrite pre st [] []).2.2
      rw [hw2] at hlenpost
      have hlenpre := writeAttrsLoop_length_no_bsm attrWrite hw pre hnbp st [] []
      simp only [List.length_nil] at hlenpre hlenpost
      have hal : (pre ++ [ ClassAttributeM.bootstrapMethods ([] : List BootstrapMethod) ] ++ post).length
          = pre.length + (post.length + 1) := by
        simp
      rw [hal, Nat.mod_eq_of_lt (by omega)]
      omega

/-- Claim C10, witness: one ordinary attribute plus an empty `BootstrapMethods`
attribute: the declared count is 2 but only one record is written. -/
theorem c10_attribute_count_mismatch_witness :
    (classWriteAttrs witWrite
        ([ ClassAttributeM.other () ] ++ [ .bootstrapMethods [] ] ++ [])
        ⟨[], []⟩).1 =
      ((classWriteAttrs witWrite
          ([ ClassAttributeM.other () ] ++ [ .bootstrapMethods [] ] ++ [])
          ⟨[], []⟩).2.2).length + 1 :=
  c10_attribute_count_mismatch witWrite [ ClassAttributeM.other () ] [] ⟨[], []⟩
    (by
      intro a ha
      simp at ha
      rw [ha]
      rfl)
    (fun _ _ => rfl) (fun _ _ => rfl) (by simp)
